import Mathlib

/-
  Verification of the streaming audio feature-extraction pipeline of the
  Python-Listen-Frame repository.

  The Python sources are shallowly embedded over the rationals:
  audio samples and feature values are modelled as `ℚ`, numpy arrays as
  `List ℚ`, and each audio callback as a pure step function on an explicit
  state record mirroring the mutable fields of the corresponding class.
  The numpy fft is kept abstract as a parameter `T : List ℚ → List ℚ`
  (the magnitude transform `np.abs (np.fft.rfft ·)`); every claim below is
  either independent of `T` or quantifies over it.
-/

namespace ListenFrame

/-- Arithmetic mean of a list of rationals, `np.mean`.  An empty list gives
`0` (rational division by zero), a case the callers below never hit on the
paths the claims are about. -/
def meanQ (l : List ℚ) : ℚ := l.sum / l.length

/-- The last `n` elements of a list, in order: the semantics of a
`collections.deque` with `maxlen = n` and of the python slice `l[-n:]`. -/
def keepLast (n : ℕ) (l : List ℚ) : List ℚ := l.drop (l.length - n)

/-- `np.mean(audio_data ** 2)` — the energy formula of
`combined_visualizer.py` line 176, `optimized_audio_brain.py` line 49 and
`ascii_music_visualizer.py` line 137. -/
def combinedEnergy (mono : List ℚ) : ℚ := meanQ (mono.map fun x => x * x)

/-- `np.sum(audio_chunk ** 2) / len(audio_chunk)` — the energy formula of
`elonmusk_audio_brain.py` line 70. -/
def elonEnergy (chunk : List ℚ) : ℚ := (chunk.map fun x => x * x).sum / chunk.length

/-- The energy-history update of `combined_visualizer.py` lines 177–179:
`append(energy)` then `pop(0)` when the length exceeds 50. -/
def pushHistory50 (h : List ℚ) (e : ℚ) : List ℚ :=
  let h' := h ++ [e]
  if h'.length > 50 then h'.drop 1 else h'

/-- Appending one element to a `deque(maxlen := cap)` —
`elonmusk_audio_brain.py` line 71 with `cap = 50`. -/
def dequePush (cap : ℕ) (h : List ℚ) (e : ℚ) : List ℚ := keepLast cap (h ++ [e])

/-- Extending a `deque(maxlen := cap)` by a whole frame —
`audio_engine.py` line 75, `self.audio_buffer.extend(audio_data)`. -/
def dequeExtend (cap : ℕ) (buf xs : List ℚ) : List ℚ := keepLast cap (buf ++ xs)

/-- The banding loop shared by `combined_visualizer.py` lines 189–194,
`ascii_music_visualizer.py` lines 148–153 and `elonmusk_fixed_visual.py`
lines 62–67: `band_size = len(magnitude) // 8` and
`bands[i] = np.mean(magnitude[i*band_size : (i+1)*band_size])`. -/
def bandsOf (magnitude : List ℚ) : List ℚ :=
  let bandSize := magnitude.length / 8
  (List.range 8).map fun i => meanQ ((magnitude.drop (i * bandSize)).take bandSize)

/-- Modelled from the spec: the §4.2 banding rule in the spec's words, with
any remainder bins absorbed into the last band.  Kept separate from
`bandsOf` (the code's loop) so the two can be compared. -/
def bandsSpec (magnitude : List ℚ) : List ℚ :=
  let bandSize := magnitude.length / 8
  (List.range 8).map fun i =>
    if i = 7 then meanQ (magnitude.drop (7 * bandSize))
    else meanQ ((magnitude.drop (i * bandSize)).take bandSize)

/-- Modelled from the spec: the §4.3 standardized beat rule,
`beat := (energy > absolute_floor) AND (energy > baseline * sensitivity_factor)`. -/
def specBeat (floorQ sens baseline energy : ℚ) : Bool :=
  decide (energy > floorQ) && decide (energy > baseline * sens)

/-- `combined_visualizer.py` line 182:
`beat = energy > 0.02 and energy > np.mean(self.energy_history) * 1.5`,
evaluated on the already-updated history. -/
def combinedBeat (hist : List ℚ) (energy : ℚ) : Bool :=
  decide (energy > 1/50) && decide (energy > meanQ hist * (3/2))

/-- `optimized_audio_brain.py` line 52: `beat = energy > 0.01`. -/
def optimizedBeat (energy : ℚ) : Bool := decide (energy > 1/100)

/-- `elonmusk_audio_brain.py` lines 79–80: the baseline is the mean of the
last 10 history entries and the beat flag is
`energy > avg_energy * 1.5 and energy > self.energy_threshold` with
`energy_threshold = 0.01`. -/
def elonBeat (last10 : List ℚ) (energy : ℚ) : Bool :=
  decide (energy > meanQ last10 * (3/2)) && decide (energy > 1/100)

/-- The mutable feature fields of `CombinedMusicVisualizer`. -/
structure CombinedState where
  audio_data : List ℚ
  energy : ℚ
  beat : Bool
  frequency_bands : List ℚ
  neural_activation : ℚ
  last_energy : ℚ
  energy_history : List ℚ
deriving Repr, DecidableEq

/-- `CombinedMusicVisualizer.__init__` lines 20–29. -/
def CombinedState.init : CombinedState :=
  ⟨List.replicate 1024 0, 0, false, List.replicate 8 0, 0, 0, []⟩

/-- One `CombinedMusicVisualizer.audio_callback` on an already mono frame
(`combined_visualizer.py` lines 176–206), with the fft magnitude kept
abstract as `T`. -/
def combinedStep (T : List ℚ → List ℚ) (s : CombinedState) (mono : List ℚ) : CombinedState :=
  let energy := combinedEnergy mono
  let hist := pushHistory50 s.energy_history energy
  let beat := combinedBeat hist energy
  let bands := bandsOf (T mono)
  let activation := max 0 ((energy - s.last_energy) * 1000)
  ⟨keepLast 1024 mono, energy, beat, bands, activation, energy, hist⟩

/-- Folding a whole input stream through the combined visualizer. -/
def runCombined (T : List ℚ → List ℚ) (s : CombinedState) (frames : List (List ℚ)) :
    CombinedState :=
  frames.foldl (combinedStep T) s

/-- The mutable feature fields of `OptimizedAudioBrain`. -/
structure OptimizedState where
  audio_data : List ℚ
  energy : ℚ
  beat : Bool
deriving Repr, DecidableEq

/-- `OptimizedAudioBrain.__init__` lines 17–23. -/
def OptimizedState.init : OptimizedState := ⟨List.replicate 1024 0, 0, false⟩

/-- One `OptimizedAudioBrain.audio_callback` on an already mono frame
(`optimized_audio_brain.py` lines 46–58); the stored waveform is
`mono[-1024:]` or the frame right-padded with zeros to 1024. -/
def optimizedStep (_s : OptimizedState) (mono : List ℚ) : OptimizedState :=
  let energy := combinedEnergy mono
  ⟨if 1024 ≤ mono.length then keepLast 1024 mono
   else mono ++ List.replicate (1024 - mono.length) 0,
   energy, optimizedBeat energy⟩

/-- The mutable feature fields of `ElonMuskAudioBrain` touched by
`process_neural_audio`. -/
structure ElonState where
  energy_history : List ℚ
  beat_detected : Bool
  neural_activation : ℚ
  last_energy : ℚ
deriving Repr, DecidableEq

/-- `ElonMuskAudioBrain.__init__` lines 23–27. -/
def ElonState.init : ElonState := ⟨[], false, 0, 0⟩

/-- `ElonMuskAudioBrain.process_neural_audio` (`elonmusk_audio_brain.py`
lines 67–86): energy is pushed into the 50-deep history first; only when
the updated history has length above 1 are the activation and the beat flag
recomputed, the beat from the mean of the last 10 history entries;
`last_energy` is updated in every case. -/
def elonStep (s : ElonState) (chunk : List ℚ) : ElonState :=
  let energy := elonEnergy chunk
  let hist := dequePush 50 s.energy_history energy
  if 1 < hist.length then
    { energy_history := hist
      beat_detected := elonBeat (keepLast 10 hist) energy
      neural_activation := max 0 ((energy - s.last_energy) * 1000)
      last_energy := energy }
  else
    { s with energy_history := hist, last_energy := energy }

/-- The mutable feature fields of `ASCIIMusicVisualizer`. -/
structure AsciiState where
  audio_data : List ℚ
  energy : ℚ
  beat : Bool
  frequency_bands : List ℚ
deriving Repr, DecidableEq

/-- `ASCIIMusicVisualizer.__init__` lines 19–25. -/
def AsciiState.init : AsciiState := ⟨List.replicate 1024 0, 0, false, List.replicate 8 0⟩

/-- One `ASCIIMusicVisualizer.audio_callback` on an already mono frame
(`ascii_music_visualizer.py` lines 134–159): absolute beat threshold 0.02,
same banding loop, stored waveform `mono[-1024:]` or right-padded. -/
def asciiStep (T : List ℚ → List ℚ) (_s : AsciiState) (mono : List ℚ) : AsciiState :=
  let energy := combinedEnergy mono
  ⟨if 1024 ≤ mono.length then keepLast 1024 mono
   else mono ++ List.replicate (1024 - mono.length) 0,
   energy, decide (energy > 1/50), bandsOf (T mono)⟩

/-- Folding a whole input stream through the ascii visualizer. -/
def runAscii (T : List ℚ → List ℚ) (s : AsciiState) (frames : List (List ℚ)) : AsciiState :=
  frames.foldl (asciiStep T) s

/-- The state of `AudioEngine`: the ring buffer
`deque(maxlen = window_samples)` of `audio_engine.py` line 19. -/
structure AudioEngine where
  window_samples : ℕ
  audio_buffer : List ℚ
deriving Repr, DecidableEq

/-- `AudioEngine.__init__`: the buffer starts empty. -/
def AudioEngine.init (windowSamples : ℕ) : AudioEngine := ⟨windowSamples, []⟩

/-- `AudioEngine._audio_callback` line 75 on an already mono frame:
`self.audio_buffer.extend(audio_data)`. -/
def AudioEngine.ingest (e : AudioEngine) (mono : List ℚ) : AudioEngine :=
  ⟨e.window_samples, dequeExtend e.window_samples e.audio_buffer mono⟩

/-- `AudioEngine.get_audio_data` lines 122–127: a full window of zeros when
the buffer is empty, otherwise a copy of the buffer contents. -/
def AudioEngine.get_audio_data (e : AudioEngine) : List ℚ :=
  if e.audio_buffer.isEmpty then List.replicate e.window_samples 0 else e.audio_buffer

/-- A whole capture session: fold the frames into a fresh engine of
capacity `C`. -/
def runEngine (C : ℕ) (frames : List (List ℚ)) : AudioEngine :=
  frames.foldl AudioEngine.ingest (AudioEngine.init C)

/-- The mono-downmix entering every audio callback, e.g.
`combined_visualizer.py` line 173:
`np.mean(indata, axis=1) if indata.shape[1] > 1 else indata[:, 0]`.
`indata` is modelled as its list of rows (one row per sample, one entry per
channel) together with its second shape axis `channels`; `indata[:, 0]`
raises an IndexError exactly when that axis is 0, which the model returns
as an `Except.error`. -/
def monoOf (channels : ℕ) (rows : List (List ℚ)) : Except String (List ℚ) :=
  if 1 < channels then .ok (rows.map meanQ)
  else if channels = 0 then .error "IndexError"
  else .ok (rows.map fun r => r.headD 0)

/-! ### Helper lemmas about `keepLast` and the ring buffer -/

lemma keepLast_length (n : ℕ) (l : List ℚ) : (keepLast n l).length = min n l.length := by
  simp [keepLast]; omega

lemma keepLast_of_le (n : ℕ) (l : List ℚ) (h : l.length ≤ n) : keepLast n l = l := by
  simp [keepLast, Nat.sub_eq_zero_of_le h]

lemma keepLast_append_keepLast (n : ℕ) (a b : List ℚ) :
    keepLast n (keepLast n a ++ b) = keepLast n (a ++ b) := by
  simp only [keepLast, List.drop_append_eq_append_drop, List.length_append, List.length_drop]
  rw [List.drop_drop]
  congr 2 <;> omega

lemma mem_keepLast_append_singleton (n : ℕ) (hn : 1 ≤ n) (l : List ℚ) (e : ℚ) :
    e ∈ keepLast n (l ++ [e]) := by
  simp only [keepLast, List.length_append, List.length_singleton,
    List.drop_append_eq_append_drop]
  have h : l.length + 1 - n - l.length = 0 := by omega
  rw [h]
  simp

lemma keepLast_append_singleton (n : ℕ) (hn : 1 ≤ n) (l : List ℚ) (e : ℚ) :
    keepLast n (l ++ [e]) = l.drop (l.length + 1 - n) ++ [e] := by
  simp only [keepLast, List.length_append, List.length_singleton,
    List.drop_append_eq_append_drop]
  have h : l.length + 1 - n - l.length = 0 := by omega
  rw [h]
  rfl

lemma mem_pushHistory50 (h : List ℚ) (e : ℚ) : e ∈ pushHistory50 h e := by
  by_cases hc : (h ++ [e]).length > 50
  · simp only [pushHistory50, if_pos hc]
    simp only [List.length_append, List.length_singleton] at hc
    have h1 : (1 : ℕ) - h.length = 0 := by omega
    rw [List.drop_append_eq_append_drop, h1]
    simp
  · simp only [pushHistory50, if_neg hc]
    simp

lemma mem_keepLast_dequePush (m n : ℕ) (hm : 1 ≤ m) (hn : 1 ≤ n) (h : List ℚ) (e : ℚ) :
    e ∈ keepLast m (dequePush n h e) := by
  rw [dequePush, keepLast_append_singleton n hn]
  exact mem_keepLast_append_singleton m hm _ e

lemma foldl_ingest (C : ℕ) (frames : List (List ℚ)) (l : List ℚ) :
    frames.foldl AudioEngine.ingest ⟨C, keepLast C l⟩
      = ⟨C, keepLast C (l ++ frames.flatten)⟩ := by
  induction frames generalizing l with
  | nil => simp
  | cons f fs ih =>
      simp only [List.foldl_cons, AudioEngine.ingest, dequeExtend, List.flatten_cons]
      rw [keepLast_append_keepLast, ih (l ++ f), List.append_assoc]

lemma runEngine_eq (C : ℕ) (frames : List (List ℚ)) :
    runEngine C frames = ⟨C, keepLast C frames.flatten⟩ := by
  have h0 : AudioEngine.init C = (⟨C, keepLast C []⟩ : AudioEngine) := by
    simp [AudioEngine.init, keepLast]
  rw [runEngine, h0, foldl_ingest]
  simp

lemma get_mk (C : ℕ) (b : List ℚ) :
    AudioEngine.get_audio_data ⟨C, b⟩ = if b.isEmpty then List.replicate C 0 else b := rfl

lemma get_keepLast_length_le (C : ℕ) (l : List ℚ) :
    (AudioEngine.get_audio_data ⟨C, keepLast C l⟩).length ≤ C := by
  rw [get_mk]
  by_cases hb : keepLast C l = []
  · simp [hb]
  · rw [if_neg (by simpa [List.isEmpty_iff] using hb)]
    have := keepLast_length C l
    omega

lemma get_keepLast_of_lt (C : ℕ) (l : List ℚ) (h : C < l.length) :
    AudioEngine.get_audio_data ⟨C, keepLast C l⟩ = l.drop (l.length - C) := by
  rw [get_mk]
  by_cases hb : keepLast C l = []
  · have hlen := keepLast_length C l
    rw [hb] at hlen
    simp at hlen
    have hC : C = 0 := by omega
    subst hC
    rw [if_pos (by simpa [List.isEmpty_iff] using hb)]
    simp
  · rw [if_neg (by simpa [List.isEmpty_iff] using hb)]
    rfl

lemma get_keepLast_of_ne (C : ℕ) (l : List ℚ) (h : l ≠ []) :
    AudioEngine.get_audio_data ⟨C, keepLast C l⟩ = keepLast C l := by
  rw [get_mk]
  by_cases hb : keepLast C l = []
  · rw [if_pos (by simpa [List.isEmpty_iff] using hb), hb]
    have hlen := keepLast_length C l
    rw [hb] at hlen
    simp at hlen
    have hl0 : l.length ≠ 0 := by simpa [List.length_eq_zero] using h
    have hC : C = 0 := by omega
    subst hC
    rfl
  · rw [if_neg (by simpa [List.isEmpty_iff] using hb)]

/-! ### Claim theorems -/

/-- C4: for every sequence of appends into the `AudioEngine` ring buffer
(`deque(maxlen = C)`), a subsequent `get_audio_data` snapshot has length at
most `C`; and once strictly more than `C` samples have been appended in
total, the snapshot is exactly the last `C` appended samples in
chronological order (the concatenation of all frames with all but the last
`C` samples dropped from the front). -/
theorem ring_buffer_bound_and_suffix (C : ℕ) (frames : List (List ℚ)) :
    ((runEngine C frames).get_audio_data).length ≤ C
    ∧ (C < frames.flatten.length →
        (runEngine C frames).get_audio_data
          = frames.flatten.drop (frames.flatten.length - C)) := by
  rw [runEngine_eq]
  exact ⟨get_keepLast_length_le C frames.flatten,
    fun h => get_keepLast_of_lt C frames.flatten h⟩

/-- Witness for C4 at a concrete run: capacity 2, one appended frame
`[1, 2, 3]`; the snapshot is the suffix `[2, 3]`. -/
theorem ring_buffer_bound_and_suffix_witness :
    2 < ([[(1 : ℚ), 2, 3]] : List (List ℚ)).flatten.length
    ∧ (runEngine 2 [[(1 : ℚ), 2, 3]]).get_audio_data = [2, 3] := by
  refine ⟨by decide, ?_⟩
  have h := (ring_buffer_bound_and_suffix 2 [[(1 : ℚ), 2, 3]]).2 (by decide)
  rw [h]
  rfl

/-- C6: before any frame has been ingested, the published defaults are
defined values: the engine snapshot is a full window of zeros, and the
optimized and ascii visualizer states start with energy 0, beat false,
bands all zero and an all-zero 1024-sample waveform buffer. -/
theorem initial_snapshot_defaults (C : ℕ) :
    (AudioEngine.init C).get_audio_data = List.replicate C 0
    ∧ OptimizedState.init.energy = 0 ∧ OptimizedState.init.beat = false
    ∧ OptimizedState.init.audio_data = List.replicate 1024 0
    ∧ AsciiState.init.energy = 0 ∧ AsciiState.init.beat = false
    ∧ AsciiState.init.frequency_bands = List.replicate 8 0
    ∧ AsciiState.init.audio_data = List.replicate 1024 0 :=
  ⟨rfl, rfl, rfl, rfl, rfl, rfl, rfl, rfl⟩

/-- C7: the feature pipeline is deterministic — two runs of the combined
and ascii visualizers from the same initial state on the same sequence of
input frames publish identical feature states (energy, beat, bands and
stored waveform are fields of those states). -/
theorem pipeline_deterministic (T : List ℚ → List ℚ) (sc : CombinedState) (sa : AsciiState)
    (fs1 fs2 : List (List ℚ)) (h : fs1 = fs2) :
    runCombined T sc fs1 = runCombined T sc fs2 ∧ runAscii T sa fs1 = runAscii T sa fs2 := by
  subst h
  exact ⟨rfl, rfl⟩

/-- Witness for C7 at a concrete input stream. -/
theorem pipeline_deterministic_witness :
    runCombined (fun l => l) CombinedState.init [[1]]
        = runCombined (fun l => l) CombinedState.init [[1]]
    ∧ runAscii (fun l => l) AsciiState.init [[1]]
        = runAscii (fun l => l) AsciiState.init [[1]] :=
  pipeline_deterministic (fun l => l) CombinedState.init AsciiState.init [[1]] [[1]] rfl

/-- C8: both energy histories are bounded FIFOs with bound `H = 50`:
starting from any history within the bound, one update keeps the length at
most 50, appends without eviction while strictly below the bound, and
evicts exactly the oldest entry when the history is full.  This covers the
list-based history of the combined visualizer and the
`deque(maxlen = 50)` of the elonmusk brain. -/
theorem energy_history_bounded_fifo (h : List ℚ) (e : ℚ) (hb : h.length ≤ 50) :
    (pushHistory50 h e).length ≤ 50
    ∧ (h.length < 50 → pushHistory50 h e = h ++ [e])
    ∧ (h.length = 50 → pushHistory50 h e = h.drop 1 ++ [e])
    ∧ (dequePush 50 h e).length ≤ 50
    ∧ (h.length = 50 → dequePush 50 h e = h.drop 1 ++ [e]) := by
  refine ⟨?_, ?_, ?_, ?_, ?_⟩
  · by_cases hc : (h ++ [e]).length > 50
    · simp only [pushHistory50, if_pos hc]
      simp only [List.length_drop, List.length_append, List.length_singleton]
      omega
    · simp only [pushHistory50, if_neg hc]
      omega
  · intro hlt
    have hc : ¬((h ++ [e]).length > 50) := by
      simp only [List.length_append, List.length_singleton]
      omega
    simp only [pushHistory50, if_neg hc]
  · intro heq
    have hc : (h ++ [e]).length > 50 := by
      simp only [List.length_append, List.length_singleton]
      omega
    simp only [pushHistory50, if_pos hc]
    have h1 : (1 : ℕ) - h.length = 0 := by omega
    rw [List.drop_append_eq_append_drop, h1]
    rfl
  · have := keepLast_length 50 (h ++ [e])
    simp only [dequePush]
    omega
  · intro heq
    rw [dequePush, keepLast_append_singleton 50 (by norm_num)]
    rw [heq]

/-- Witness for C8 at a full history of fifty zeros. -/
theorem energy_history_bounded_fifo_witness :
    (List.replicate 50 (0 : ℚ)).length ≤ 50
    ∧ (pushHistory50 (List.replicate 50 (0 : ℚ)) 1).length ≤ 50
    ∧ ((List.replicate 50 (0 : ℚ)).length = 50 →
        pushHistory50 (List.replicate 50 (0 : ℚ)) 1
          = (List.replicate 50 (0 : ℚ)).drop 1 ++ [1]) := by
  refine ⟨by decide, ?_, ?_⟩
  · exact (energy_history_bounded_fifo (List.replicate 50 0) 1 (by decide)).1
  · exact (energy_history_bounded_fifo (List.replicate 50 0) 1 (by decide)).2.2.1

/-- C9: `get_audio_data` does not have a constant result length: with no
samples ever appended it is an all-zero list of the full window length,
while after at least one appended sample it is exactly the stored suffix,
of length `min (total appended) window_samples`, with no padding. -/
theorem snapshot_length_by_state (C : ℕ) (frames : List (List ℚ)) :
    (frames.flatten = [] → (runEngine C frames).get_audio_data = List.replicate C 0)
    ∧ (frames.flatten ≠ [] →
        (runEngine C frames).get_audio_data = keepLast C frames.flatten
        ∧ ((runEngine C frames).get_audio_data).length
            = min frames.flatten.length C) := by
  rw [runEngine_eq]
  constructor
  · intro h
    rw [h]
    simp [get_mk, keepLast]
  · intro h
    have hget := get_keepLast_of_ne C frames.flatten h
    refine ⟨hget, ?_⟩
    rw [hget, keepLast_length]
    omega

/-- Witness for C9: both branches at concrete runs — no samples appended
(window 3), and two samples appended into a window of capacity 3. -/
theorem snapshot_length_by_state_witness :
    (runEngine 3 ([] : List (List ℚ))).get_audio_data = List.replicate 3 0
    ∧ (runEngine 3 [[(5 : ℚ), 6]]).get_audio_data = keepLast 3 [(5 : ℚ), 6]
    ∧ ((runEngine 3 [[(5 : ℚ), 6]]).get_audio_data).length = min 2 3 := by
  refine ⟨(snapshot_length_by_state 3 []).1 rfl, ?_, ?_⟩
  · exact ((snapshot_length_by_state 3 [[(5 : ℚ), 6]]).2 (by decide)).1
  · exact ((snapshot_length_by_state 3 [[(5 : ℚ), 6]]).2 (by decide)).2

/-- C2 counterexample: on a 9-bin magnitude sequence the band size is
`9 / 8 = 1` and the final bin (value 1) is a remainder bin.  The code's
banding (`bandsOf`) reports last band 0, ignoring it, while the spec's
absorb-into-last-band rule (`bandsSpec`) reports `1/2`: remainder bins are
dropped, not absorbed. -/
theorem bands_remainder_cex :
    bandsOf [0, 0, 0, 0, 0, 0, 0, 0, 1] ≠ bandsSpec [0, 0, 0, 0, 0, 0, 0, 0, 1]
    ∧ (bandsOf [0, 0, 0, 0, 0, 0, 0, 0, 1]).getD 7 0 = 0
    ∧ meanQ (List.drop (7 * (([0, 0, 0, 0, 0, 0, 0, 0, 1] : List ℚ).length / 8))
        [0, 0, 0, 0, 0, 0, 0, 0, 1]) = 1 / 2 := by
  refine ⟨?_, ?_, ?_⟩ <;> norm_num [bandsOf, bandsSpec, meanQ, List.range_succ]

/-- C2 as amended: for a magnitude sequence of at least 8 bins, the code
produces 8 bands, band `i` is the arithmetic mean of the contiguous slice
of `band_size = binCount / 8` bins starting at `i * band_size`, and the
remainder bins beyond `8 * band_size` are discarded — truncating them away
does not change any band. -/
theorem bands_slices_remainder_dropped (mags : List ℚ) (h8 : 8 ≤ mags.length) :
    (bandsOf mags).length = 8
    ∧ bandsOf (mags.take (8 * (mags.length / 8))) = bandsOf mags
    ∧ (∀ i, i < 8 →
        (bandsOf mags).getD i 0
          = meanQ ((mags.drop (i * (mags.length / 8))).take (mags.length / 8))) := by
  refine ⟨by simp [bandsOf], ?_, ?_⟩
  · have hlen : (mags.take (8 * (mags.length / 8))).length = 8 * (mags.length / 8) := by
      rw [List.length_take]
      omega
    unfold bandsOf
    simp only [hlen]
    rw [Nat.mul_div_cancel_left _ (by norm_num : (0 : ℕ) < 8)]
    apply List.map_congr_left
    intro i hi
    rw [List.mem_range] at hi
    rw [List.drop_take, List.take_take]
    have hmin : min (mags.length / 8) (8 * (mags.length / 8) - i * (mags.length / 8))
        = mags.length / 8 := by
      interval_cases i <;> omega
    rw [hmin]
  · intro i hi
    unfold bandsOf
    rw [List.getD_eq_getElem?_getD, List.getElem?_map, List.getElem?_range hi]
    rfl

/-- Witness for C2 (amended) at a 9-bin magnitude sequence. -/
theorem bands_slices_remainder_dropped_witness :
    8 ≤ ([0, 0, 0, 0, 0, 0, 0, 0, 1] : List ℚ).length
    ∧ (bandsOf [0, 0, 0, 0, 0, 0, 0, 0, 1]).length = 8
    ∧ bandsOf (([0, 0, 0, 0, 0, 0, 0, 0, 1] : List ℚ).take
        (8 * (([0, 0, 0, 0, 0, 0, 0, 0, 1] : List ℚ).length / 8)))
      = bandsOf [0, 0, 0, 0, 0, 0, 0, 0, 1] := by
  refine ⟨by norm_num, ?_, ?_⟩
  · exact (bands_slices_remainder_dropped [0, 0, 0, 0, 0, 0, 0, 0, 1] (by norm_num)).1
  · exact (bands_slices_remainder_dropped [0, 0, 0, 0, 0, 0, 0, 0, 1] (by norm_num)).2.1

/-- C10: in both rolling-baseline beat detectors the current frame's
energy is pushed into the history before the baseline mean is computed:
the combined visualizer's beat is evaluated against the already-updated
history, which contains the current energy, and the elonmusk brain's beat
(when the updated history has more than one entry) is evaluated against
the last 10 entries of the already-updated history, which also contain the
current energy. -/
theorem baseline_includes_current_energy (T : List ℚ → List ℚ) (s : CombinedState)
    (t : ElonState) (mono chunk : List ℚ) :
    ((combinedStep T s mono).beat
        = combinedBeat (pushHistory50 s.energy_history (combinedEnergy mono))
            (combinedEnergy mono)
      ∧ combinedEnergy mono ∈ pushHistory50 s.energy_history (combinedEnergy mono))
    ∧ ((1 < (dequePush 50 t.energy_history (elonEnergy chunk)).length →
          (elonStep t chunk).beat_detected
            = elonBeat (keepLast 10 (dequePush 50 t.energy_history (elonEnergy chunk)))
                (elonEnergy chunk))
      ∧ elonEnergy chunk ∈ keepLast 10 (dequePush 50 t.energy_history (elonEnergy chunk))) := by
  refine ⟨⟨rfl, mem_pushHistory50 _ _⟩,
    ⟨?_, mem_keepLast_dequePush 10 50 (by norm_num) (by norm_num) _ _⟩⟩
  intro hlen
  simp only [elonStep, if_pos hlen]

/-- Witness for C10: a state whose history already holds one entry, so the
updated history has length 2 and the elonmusk beat branch is taken. -/
theorem baseline_includes_current_energy_witness :
    1 < (dequePush 50 [(0 : ℚ)] (elonEnergy [1, 1])).length
    ∧ (elonStep ⟨[0], false, 0, 0⟩ [1, 1]).beat_detected
        = elonBeat (keepLast 10 (dequePush 50 [(0 : ℚ)] (elonEnergy [1, 1])))
            (elonEnergy [1, 1])
    ∧ elonEnergy [1, 1] ∈ keepLast 10 (dequePush 50 [(0 : ℚ)] (elonEnergy [1, 1])) := by
  have h : 1 < (dequePush 50 [(0 : ℚ)] (elonEnergy [1, 1])).length := by
    simp [dequePush, keepLast]
  exact ⟨h,
    (baseline_includes_current_energy (fun l => l) CombinedState.init
      ⟨[0], false, 0, 0⟩ [] [1, 1]).2.1 h,
    (baseline_includes_current_energy (fun l => l) CombinedState.init
      ⟨[0], false, 0, 0⟩ [] [1, 1]).2.2⟩

/-- C5: the frame energy is the arithmetic mean of the squared samples in
every variant (`np.mean(x ** 2)` and `np.sum(x ** 2) / len(x)` agree); an
all-zero frame yields energy 0 and beat false (shown for the optimized and
the combined beat detectors), and a nonempty constant frame of value `a`
yields energy `a ^ 2`. -/
theorem energy_is_mean_power (frame : List ℚ) (a : ℚ) (n : ℕ) (s : OptimizedState)
    (T : List ℚ → List ℚ) (sc : CombinedState) (hn : 0 < n) :
    combinedEnergy frame = (frame.map fun x => x * x).sum / frame.length
    ∧ elonEnergy frame = (frame.map fun x => x * x).sum / frame.length
    ∧ combinedEnergy (List.replicate n 0) = 0
    ∧ (optimizedStep s (List.replicate n 0)).beat = false
    ∧ (combinedStep T sc (List.replicate n 0)).beat = false
    ∧ combinedEnergy (List.replicate n a) = a ^ 2 := by
  have hzero : combinedEnergy (List.replicate n (0 : ℚ)) = 0 := by
    simp [combinedEnergy, meanQ, List.map_replicate]
  have hconst : combinedEnergy (List.replicate n a) = a ^ 2 := by
    have hne : (n : ℚ) ≠ 0 := Nat.cast_ne_zero.mpr hn.ne'
    simp only [combinedEnergy, meanQ, List.map_replicate, List.sum_replicate,
      List.length_replicate, sq]
    rw [nsmul_eq_mul, mul_div_cancel_left₀ _ hne]
  refine ⟨by simp [combinedEnergy, meanQ], rfl, hzero, ?_, ?_, hconst⟩
  · simp only [optimizedStep, optimizedBeat, hzero]
    norm_num
  · simp only [combinedStep, combinedBeat, hzero]
    norm_num

/-- Witness for C5 at a frame of four samples of value `1/2`. -/
theorem energy_is_mean_power_witness :
    (0 : ℕ) < 4
    ∧ combinedEnergy (List.replicate 4 (0 : ℚ)) = 0
    ∧ combinedEnergy (List.replicate 4 ((1 : ℚ) / 2)) = ((1 : ℚ) / 2) ^ 2 := by
  refine ⟨by norm_num, ?_, ?_⟩
  · exact (energy_is_mean_power [] ((1 : ℚ) / 2) 4 OptimizedState.init (fun l => l)
      CombinedState.init (by norm_num)).2.2.1
  · exact (energy_is_mean_power [] ((1 : ℚ) / 2) 4 OptimizedState.init (fun l => l)
      CombinedState.init (by norm_num)).2.2.2.2.2

/-- C1 counterexample: the optimized audio brain is a beat-detecting
variant, yet its beat flag is not the spec's relative-to-baseline form.  On
the first ingested frame `[1/5, 1/5]` the energy is `1/25`; the optimized
variant reports beat = true (absolute threshold `energy > 0.01` only),
while the spec's standardized rule with any floor and sensitivity 1.5 over
the one-entry rolling history `[1/25]` (mean `1/25`) is false, because
`1/25 > (1/25) * 1.5` fails. -/
theorem beat_rule_not_universal_cex :
    (optimizedStep OptimizedState.init [1 / 5, 1 / 5]).beat = true
    ∧ specBeat (1 / 100) (3 / 2)
        (meanQ [(optimizedStep OptimizedState.init [1 / 5, 1 / 5]).energy])
        ((optimizedStep OptimizedState.init [1 / 5, 1 / 5]).energy) = false := by
  constructor
  · norm_num [optimizedStep, optimizedBeat, combinedEnergy, meanQ]
  · norm_num [optimizedStep, specBeat, combinedEnergy, meanQ]

/-- C1 as amended: the beat rules per variant.  The combined visualizer
implements the relative-to-baseline form with floor 0.02 and sensitivity
1.5 over the full (already updated) 50-entry history; the elonmusk brain
implements it, from the second frame onward, with floor 0.01 over the last
10 entries of the updated history; the optimized brain uses only the
absolute threshold `energy > 0.01` (as do the ascii, fixed-visual and
simple variants, with floors 0.02, 0.02 and 0.01). -/
theorem beat_rules_per_variant (T : List ℚ → List ℚ) (s : CombinedState) (t : ElonState)
    (so : OptimizedState) (mono chunk : List ℚ) :
    ((combinedStep T s mono).beat = true ↔
      (combinedEnergy mono > 1 / 50
        ∧ combinedEnergy mono
            > meanQ (pushHistory50 s.energy_history (combinedEnergy mono)) * (3 / 2)))
    ∧ (1 < (dequePush 50 t.energy_history (elonEnergy chunk)).length →
        ((elonStep t chunk).beat_detected = true ↔
          (elonEnergy chunk
              > meanQ (keepLast 10 (dequePush 50 t.energy_history (elonEnergy chunk))) * (3 / 2)
            ∧ elonEnergy chunk > 1 / 100)))
    ∧ ((optimizedStep so mono).beat = true ↔ combinedEnergy mono > 1 / 100) := by
  refine ⟨?_, ?_, ?_⟩
  · simp [combinedStep, combinedBeat, Bool.and_eq_true, decide_eq_true_eq]
  · intro hlen
    simp only [elonStep, if_pos hlen]
    simp [elonBeat, Bool.and_eq_true, decide_eq_true_eq]
  · simp [optimizedStep, optimizedBeat, decide_eq_true_eq]

/-- Witness for C1 (amended): the elonmusk branch at a state whose history
already holds one entry, so the updated history has length 2. -/
theorem beat_rules_per_variant_witness :
    1 < (dequePush 50 [(0 : ℚ)] (elonEnergy [1, 1])).length
    ∧ ((elonStep ⟨[0], false, 0, 0⟩ [1, 1]).beat_detected = true ↔
        (elonEnergy [1, 1]
            > meanQ (keepLast 10 (dequePush 50 [(0 : ℚ)] (elonEnergy [1, 1]))) * (3 / 2)
          ∧ elonEnergy [1, 1] > 1 / 100)) := by
  have h : 1 < (dequePush 50 [(0 : ℚ)] (elonEnergy [1, 1])).length := by
    simp [dequePush, keepLast]
  exact ⟨h, (beat_rules_per_variant (fun l => l) CombinedState.init ⟨[0], false, 0, 0⟩
    OptimizedState.init [] [1, 1]).2.1 h⟩

/-- C3 counterexample: the audio-callback path does not sanitize an
unexpected channel shape.  On a frame with zero channels the mono-downmix
branch `indata[:, 0]` raises an IndexError out of the capture callback
instead of treating the frame as silence. -/
theorem downmix_zero_channel_raises :
    monoOf 0 [[], []] = Except.error "IndexError" := rfl

/-- C3 as amended: for every frame with at least one channel the
mono-downmix stage completes without raising — frames with two or more
channels are downmixed to the arithmetic channel mean and single-channel
frames pass their only column through — but a zero-channel frame raises,
and no NaN/Inf sanitization exists anywhere on the path. -/
theorem downmix_positive_channels_total (c : ℕ) (rows : List (List ℚ)) (hc : 1 ≤ c) :
    (monoOf c rows).isOk = true
    ∧ (1 < c → monoOf c rows = Except.ok (rows.map meanQ))
    ∧ (c = 1 → monoOf c rows = Except.ok (rows.map fun r => r.headD 0)) := by
  by_cases h : 1 < c
  · refine ⟨?_, fun _ => ?_, fun h1 => ?_⟩
    · simp [monoOf, if_pos h, Except.isOk, Except.toBool]
    · simp [monoOf, if_pos h]
    · omega
  · have h1 : c = 1 := by omega
    subst h1
    refine ⟨?_, fun h2 => ?_, fun _ => ?_⟩
    · simp [monoOf, Except.isOk, Except.toBool]
    · omega
    · simp [monoOf]

/-- Witness for C3 (amended): a two-channel, two-sample frame is downmixed
to the channel means. -/
theorem downmix_positive_channels_total_witness :
    (1 : ℕ) ≤ 2
    ∧ (monoOf 2 [[1, 3], [2, 2]]).isOk = true
    ∧ (1 < 2 → monoOf 2 [[(1 : ℚ), 3], [2, 2]]
        = Except.ok ([[(1 : ℚ), 3], [2, 2]].map meanQ)) := by
  refine ⟨by norm_num, ?_, ?_⟩
  · exact (downmix_positive_channels_total 2 [[1, 3], [2, 2]] (by norm_num)).1
  · exact (downmix_positive_channels_total 2 [[(1 : ℚ), 3], [2, 2]] (by norm_num)).2.1

end ListenFrame
